import Mathlib

/-!
Verification development for the spring workload generator
(`spring/docgen.py` and `spring/wgen.py`).

The Python code is shallowly embedded: classes become structures, methods
become functions, Python's `random.*` / `np.random.*` draws become explicit
oracle parameters (a natural-number or rational draw passed in), and calls
that can raise (`random.randrange` on an empty range, `%` by zero,
`np.random.random_integers` with `high < low`) return `Option` values where
`none` models the raised exception.

Counters (`curr_items`, `curr_deletes`, ...) are unsigned and satisfy
`curr_deletes ≤ curr_items` in every reachable state, so they are modelled
as `Nat`.
-/

namespace Spring

/-- Workload settings: the subset of `spring.settings.WorkloadSettings`
fields that the key generators and the KV worker batch logic read. -/
structure WorkloadSettings where
  items : Nat
  workers : Nat
  creates : Nat
  reads : Nat
  updates : Nat
  deletes : Nat
  reads_and_updates : Nat
  working_set : Nat
  working_set_access : Nat
  working_set_moving_docs : Nat
  key_fmtr : String
deriving DecidableEq, Repr

/-- Constant `PRIME` from `docgen.py`. -/
def PRIME : Nat := 4889388631

/-- Constant `MAX_PRIME` from `docgen.py`. -/
def MAX_PRIME : Nat := 25191867719

/-- Constant `OFFSET` from `docgen.py`. -/
def OFFSET : Nat := 25000000000

/-- Constant `HASH_LENGTH` from `docgen.py`. -/
def HASH_LENGTH : Nat := 16

/-- Decimal digit characters of `n`, most significant first (the digits of
`'%d' % n`; empty for `n = 0`, which the padding below turns into `"0"*12`
exactly as Python renders `'%012d' % 0`). -/
def natDecChars (n : Nat) : List Char :=
  (Nat.digits 10 n).reverse.map Nat.digitChar

/-- Hexadecimal digit characters of `n`, most significant first. -/
def natHexChars (n : Nat) : List Char :=
  (Nat.digits 16 n).reverse.map Nat.digitChar

/-- Left-pad a digit string with `'0'` to width `w` (the semantics of the
`'%0wd'` / `'%0wx'` format specifiers: pad, never truncate). -/
def padZeros (w : Nat) (l : List Char) : List Char :=
  List.replicate (w - l.length) '0' ++ l

/-- `hex_digest` from `docgen.py`: `'%032x' % spooky.hash128(key)`.
The external spooky hash is passed in as a function parameter `hash`. -/
def hex_digest (hash : String → Nat) (key : String) : String :=
  String.mk (padZeros 32 (natHexChars (hash key)))

/-- `decimal_fmtr` from `docgen.py`: `'%012d' % key`, optionally prepending
`prefix + "-"` when the prefix string is non-empty (Python truthiness). -/
def decimal_fmtr (key : Nat) (pfx : String) : String :=
  let ks := String.mk (padZeros 12 (natDecChars key))
  if pfx = "" then ks else pfx ++ "-" ++ ks

/-- `hash_fmtr` from `docgen.py`: hash the decimal form and keep the first
`HASH_LENGTH` characters. -/
def hash_fmtr (hash : String → Nat) (key : Nat) (pfx : String) : String :=
  (hex_digest hash (decimal_fmtr key pfx)).take HASH_LENGTH

/-- `hex_fmtr` from `docgen.py`: multiplicative hash into
`[OFFSET, OFFSET + MAX_PRIME)`, then `'%036x'` of its fourth power. -/
def hex_fmtr (key : Nat) (pfx : String) : String :=
  let k1 := OFFSET + (key * PRIME) % MAX_PRIME
  let ks := String.mk (padZeros 36 (natHexChars (k1 ^ 4)))
  if pfx = "" then ks else pfx ++ "-" ++ ks

/-- The `Key` value object of `docgen.py` (`number`, `prefix`, `fmtr`,
`hit`).  The `prefix` attribute is renamed `keyPfx` (Lean reserves the
name). -/
structure Key where
  number : Nat
  keyPfx : String
  fmtr : String
  hit : Bool := false
deriving DecidableEq, Repr

/-- `Key.string` from `docgen.py`: dispatch on the formatter name
(`'hash'`, `'hex'`, anything else decimal).  `hash` is the external spooky
hash function. -/
def Key.string (hash : String → Nat) (k : Key) : String :=
  if k.fmtr = "hash" then hash_fmtr hash k.number k.keyPfx
  else if k.fmtr = "hex" then hex_fmtr k.number k.keyPfx
  else decimal_fmtr k.number k.keyPfx

/-- `random.randrange(lo, hi)`: raises `ValueError` (modelled `none`) on an
empty range, otherwise returns a value of `[lo, hi)`; the oracle draw `r`
selects which one. -/
def randrange (lo hi : Nat) (r : Nat) : Option Nat :=
  if lo < hi then some (lo + r % (hi - lo)) else none

/-- Parse a string of decimal digit characters back into a number (the
`int(...)` round-trip used to state the formatter claims). -/
def parseDecChars (l : List Char) : Nat :=
  Nat.ofDigits 10 ((l.map fun c => c.toNat - 48).reverse)

/-- `NewOrderedKey` generator state (prefix and formatter). -/
structure NewOrderedKey where
  keyPfx : String
  fmtr : String
deriving DecidableEq, Repr

/-- `NewOrderedKey.next`: the new key is exactly `curr_items`. -/
def NewOrderedKey.next (g : NewOrderedKey) (curr_items : Nat) : Key :=
  ⟨curr_items, g.keyPfx, g.fmtr, false⟩

/-- `KeyForRemoval` generator state. -/
structure KeyForRemoval where
  keyPfx : String
  fmtr : String
deriving DecidableEq, Repr

/-- `KeyForRemoval.next`: deletes always consume the lowest surviving key. -/
def KeyForRemoval.next (g : KeyForRemoval) (curr_deletes : Nat) : Key :=
  ⟨curr_deletes, g.keyPfx, g.fmtr, false⟩

/-- `UniformKey` generator state. -/
structure UniformKey where
  keyPfx : String
  fmtr : String
deriving DecidableEq, Repr

/-- `UniformKey.next`: `random.randrange(curr_deletes, curr_items)`,
raising (`none`) when the live range is empty. -/
def UniformKey.next (g : UniformKey) (curr_items curr_deletes : Nat)
    (r : Nat) : Option Key :=
  (randrange curr_deletes curr_items r).map
    fun n => ⟨n, g.keyPfx, g.fmtr, false⟩

/-- `WorkingSetKey` generator state; `num_hot_items` is computed by the
constructor as `int(ws.items * ws.working_set / 100)`. -/
structure WorkingSetKey where
  num_hot_items : Nat
  working_set_access : Nat
  keyPfx : String
  fmtr : String
deriving DecidableEq, Repr

/-- `WorkingSetKey.__init__` from the workload settings. -/
def WorkingSetKey.init (ws : WorkloadSettings) (pfx : String) : WorkingSetKey :=
  ⟨ws.items * ws.working_set / 100, ws.working_set_access, pfx, ws.key_fmtr⟩

/-- `WorkingSetKey.next`: the access draw `a` models
`random.randint(0, 100)` (inclusive on both ends, hence `a % 101`); when
it is `≤ working_set_access` the hot suffix is sampled (a hit), otherwise
the cold prefix (a miss).  `randrange` raising on an empty boundary pair is
modelled by `none`. -/
def WorkingSetKey.next (g : WorkingSetKey) (curr_items curr_deletes : Nat)
    (a r : Nat) : Option Key :=
  let num_cold_items := curr_items - g.num_hot_items
  if a % 101 ≤ g.working_set_access then
    (randrange num_cold_items curr_items r).map
      fun n => ⟨n, g.keyPfx, g.fmtr, true⟩
  else
    (randrange curr_deletes num_cold_items r).map
      fun n => ⟨n, g.keyPfx, g.fmtr, false⟩

/-- `ContinuousKey` state shared by the Zipf and power generators; `alpha`
only shapes the oracle draw so it is not carried here. -/
structure ContinuousKey where
  keyPfx : String
  fmtr : String
deriving DecidableEq, Repr

/-- `ZipfKey.next`: `number = curr_items - np.random.zipf(alpha)` with the
draw `z` (always `≥ 1` for a Zipf sample), clamped to `curr_items - 1`
whenever it falls at or below `curr_deletes`.  Never raises. -/
def ZipfKey.next (g : ContinuousKey) (curr_items curr_deletes : Nat)
    (z : Nat) : Option Key :=
  let number := curr_items - z
  let number := if number ≤ curr_deletes then curr_items - 1 else number
  some ⟨number, g.keyPfx, g.fmtr, false⟩

/-- `PowerKey.next`: `r = np.random.power(alpha)` is a real draw of
`[0, 1)`, modelled by the rational oracle `q`; the Python
`int(r * (curr_items - curr_deletes - 1))` truncation is `Int.floor` (the
operand is non-negative for `q ≥ 0`, and for `curr_items = curr_deletes`
the Python value `int(q * (-1)) = 0` coincides with the `Nat` model).
Never raises. -/
def PowerKey.next (g : ContinuousKey) (curr_items curr_deletes : Nat)
    (q : ℚ) : Option Key :=
  let span : Nat := curr_items - curr_deletes - 1
  let number := curr_deletes + (⌊q * (span : ℚ)⌋).toNat
  some ⟨number, g.keyPfx, g.fmtr, false⟩

/-- `MovingWorkingSetKey` generator state. -/
structure MovingWorkingSetKey where
  working_set : Nat
  working_set_access : Nat
  working_set_moving_docs : Nat
  keyPfx : String
  fmtr : String
deriving DecidableEq, Repr

/-- The hot-window offset update performed by `MovingWorkingSetKey.next`
when the timer flag is observed set:
`(hot_load_start + working_set_moving_docs) % (num_existing - num_hot)`. -/
def MovingWorkingSetKey.advanceOffset (g : MovingWorkingSetKey)
    (num_existing_items hot_load_start : Nat) : Nat :=
  let num_hot_items := num_existing_items * g.working_set / 100
  let num_items := num_existing_items - num_hot_items
  (hot_load_start + g.working_set_moving_docs) % num_items

/-- `MovingWorkingSetKey.next`.  The shared cells are passed as the current
offset `hot_load_start` and the flag `timer_elapse`; the result carries the
new offset, the new flag value and the key.  A zero non-hot population when
the flag is set makes the Python `%` raise `ZeroDivisionError` (`none`), an
empty hot window makes `randrange` raise (`none`). -/
def MovingWorkingSetKey.next (g : MovingWorkingSetKey)
    (curr_items curr_deletes hot_load_start : Nat) (timer_elapse : Bool)
    (r : Nat) : Option (Nat × Bool × Key) :=
  let num_existing_items := curr_items - curr_deletes
  let num_hot_items := num_existing_items * g.working_set / 100
  if timer_elapse then
    if num_existing_items - num_hot_items = 0 then none
    else
      let hls := g.advanceOffset num_existing_items hot_load_start
      let left_boundary := curr_deletes + hls
      (randrange left_boundary (left_boundary + num_hot_items) r).map
        fun n => (hls, false, ⟨n, g.keyPfx, g.fmtr, false⟩)
  else
    let left_boundary := curr_deletes + hot_load_start
    (randrange left_boundary (left_boundary + num_hot_items) r).map
      fun n => (hot_load_start, timer_elapse, ⟨n, g.keyPfx, g.fmtr, false⟩)

/-- `SequentialKey`: the numbers yielded by worker `sid`, i.e. Python's
`range(sid, items, workers)` (`workers > 0`; the count below is
`ceil((items - sid) / workers)`). -/
def seqKeyNumbers (sid items workers : Nat) : List Nat :=
  List.range' sid ((items - sid + workers - 1) / workers) workers

/-- The `Key` sequence yielded by `SequentialKey.__iter__` for worker
`sid`. -/
def SequentialKey.iter (sid : Nat) (ws : WorkloadSettings) (pfx : String) :
    List Key :=
  (seqKeyNumbers sid ws.items ws.workers).map
    fun n => ⟨n, pfx, ws.key_fmtr, false⟩

/-- `KeyForCASUpdate` generator state. -/
structure KeyForCASUpdate where
  n1ql_workers : Nat
  keyPfx : String
  fmtr : String
deriving DecidableEq, Repr

/-- `KeyForCASUpdate.next`: shard `[0, curr_items)` into `n1ql_workers`
blocks of `curr_items // n1ql_workers` and draw inclusively with
`np.random.random_integers(left, right - 1)`.  Zero workers would be a
Python `ZeroDivisionError` and an empty shard a `ValueError` from
`random_integers` (`high < low`); both are modelled `none`. -/
def KeyForCASUpdate.next (g : KeyForCASUpdate) (sid curr_items : Nat)
    (r : Nat) : Option Key :=
  if g.n1ql_workers = 0 then none
  else
    let per_worker_items := curr_items / g.n1ql_workers
    if per_worker_items = 0 then none
    else
      let left_boundary := sid * per_worker_items
      some ⟨left_boundary + r % per_worker_items, g.keyPfx, g.fmtr, false⟩

/-- The `String` document synthesizer of `docgen.py` (renamed: Lean's
`String` is taken). -/
structure StringGen where
  avg_size : Nat
deriving DecidableEq, Repr

/-- `String.build_alphabet`: two 32-hex-digit digests (of the key string
and of its reverse) concatenated into a 64-character alphabet. -/
def build_alphabet (hash : String → Nat) (key : String) : String :=
  hex_digest hash key ++ hex_digest hash (String.mk key.data.reverse)

/-- `String.build_string`: repeat the alphabet `ceil(length / 64)` times
and truncate to `length` characters. -/
def build_string (alphabet : String) (length : Nat) : String :=
  let num_slices := (length + 63) / 64
  String.mk ((List.replicate num_slices alphabet.data).flatten.take length)

/-- `String.next`: derive the alphabet from the key string and build the
body.  No randomness enters: the only inputs are the hash function, the
synthesizer instance and the key. -/
def StringGen.next (hash : String → Nat) (g : StringGen) (k : Key) : String :=
  build_string (build_alphabet hash (Key.string hash k)) g.avg_size

/-- `IncompressibleString.build_string` by contrast consumes a random
offset draw (`random.randint`), recorded here as the explicit oracle
`rnd` — this synthesizer is one of the explicitly randomized variants. -/
def IncompressibleString.build_string (garbage : List Char) (length : Nat)
    (rnd : Nat) : List Char :=
  let offset := rnd % (garbage.length - length + 1)
  (garbage.drop offset).take length

/-- The operation-type tokens drawn by `KVWorker.random_ops`
(`'c'`, `'r'`, `'u'`, `'d'`, `'m'`). -/
inductive OpTok
  | c
  | r
  | u
  | d
  | m
deriving DecidableEq, Repr

/-- The kind of a resolved client command; `create` and `update` both log
under the `'set'` label in the source but call distinct client methods
(`cb.create` vs `cb.update`), `read` is `'get'`, `delete` is `'delete'`. -/
inductive CmdKind
  | create
  | read
  | update
  | delete
deriving DecidableEq, Repr

/-- A resolved command of a batch: its kind and the key number it
addresses (the document payload and client arguments are derived from the
key and carry no extra state). -/
structure Cmd where
  kind : CmdKind
  key : Nat
deriving DecidableEq, Repr

/-- The multiset of operation tokens that `KVWorker.random_ops` shuffles:
`creates` × `'c'`, `reads` × `'r'`, `updates` × `'u'`, `deletes` × `'d'`
and `reads_and_updates // 2` × `'m'`.  The shuffle itself is modelled as
an arbitrary permutation of this list. -/
def canonicalOps (ws : WorkloadSettings) : List OpTok :=
  List.replicate ws.creates .c ++ List.replicate ws.reads .r ++
  List.replicate ws.updates .u ++ List.replicate ws.deletes .d ++
  List.replicate (ws.reads_and_updates / 2) .m

/-- The token-resolution loop body of `KVWorker.gen_cmd_sequence`:
`ci` is the local `curr_items` cursor (advanced by each create), `di` the
local `deleted_items` cursor (advanced by each delete), and `sample idx`
the `idx`-th key number drawn from `self.existing_keys` (reads, updates
and modifies each consume one draw; a modify shares its single draw
between its read and its update command). -/
def genCmds (ops : List OpTok) (ci di idx : Nat) (sample : Nat → Nat) :
    List Cmd :=
  match ops with
  | [] => []
  | .c :: t => ⟨.create, ci⟩ :: genCmds t (ci + 1) di idx sample
  | .r :: t => ⟨.read, sample idx⟩ :: genCmds t ci di (idx + 1) sample
  | .u :: t => ⟨.update, sample idx⟩ :: genCmds t ci di (idx + 1) sample
  | .d :: t => ⟨.delete, di⟩ :: genCmds t ci (di + 1) idx sample
  | .m :: t =>
      ⟨.read, sample idx⟩ :: ⟨.update, sample idx⟩ ::
        genCmds t ci di (idx + 1) sample

/-- The cross-process shared counters reserved by
`KVWorker.gen_cmd_sequence` under the pool lock. -/
structure SharedState where
  curr_items : Nat
  deleted_items : Nat
deriving DecidableEq, Repr

/-- `KVWorker.gen_cmd_sequence`: reserve the new-key block (one locked
`curr_items += ws.creates`, only when `ws.creates` is non-zero) and the
removal block (one locked `deleted_items += ws.deletes`), then resolve a
shuffled token list `ops` into commands.  Returns the updated shared
state, the two reserved snapshots (the local `curr_items` and
`deleted_items` starting cursors) and the command list. -/
def gen_cmd_sequence (ws : WorkloadSettings) (st : SharedState)
    (ops : List OpTok) (sample : Nat → Nat) :
    SharedState × Nat × Nat × List Cmd :=
  let ci := if ws.creates ≠ 0 then st.curr_items else ws.items
  let st1 := if ws.creates ≠ 0 then
    { st with curr_items := st.curr_items + ws.creates } else st
  let di := if ws.deletes ≠ 0 then
    st.deleted_items + ws.deletes * ws.workers else 0
  let st2 := if ws.deletes ≠ 0 then
    { st1 with deleted_items := st1.deleted_items + ws.deletes } else st1
  (st2, ci, di, genCmds ops ci di 0 sample)

/-- The key numbers of the create commands of a batch, in order. -/
def createKeys (cmds : List Cmd) : List Nat :=
  cmds.filterMap fun cmd => if cmd.kind = .create then some cmd.key else none

/-- The key numbers of the delete commands of a batch, in order. -/
def deleteKeys (cmds : List Cmd) : List Nat :=
  cmds.filterMap fun cmd => if cmd.kind = .delete then some cmd.key else none

/-- The number of commands of kind `k` of a batch. -/
def countKind (k : CmdKind) (cmds : List Cmd) : Nat :=
  (cmds.filter fun cmd => cmd.kind = k).length

/-- The outcome a single `do_batch` call can have in the synchronous
worker run loop: success, or a raised exception of the given Python
class. -/
inductive ExcKind
  | keyboardInterrupt
  | otherError
deriving DecidableEq, Repr

/-- The control flow of the synchronous `KVWorker.run` loop.  `opsLimit`
is `ws.ops`, `curr` the shared operation counter (incremented by
`BATCH_SIZE = 100` before each batch), and `batches` the outcomes of the
successive `do_batch` calls (`[]` once the shutdown flag would be
observed).  The result is the exception that propagates out of `run`
(`none` if none does) and whether `dump_stats` was reached: the `try`
block catches only `KeyboardInterrupt`, so any other exception skips the
dump and escapes. -/
def runLoop (opsLimit curr : Nat) (batches : List (Option ExcKind)) :
    Option ExcKind × Bool :=
  match batches with
  | [] => (none, true)
  | b :: t =>
      if opsLimit ≤ curr then (none, true)
      else
        match b with
        | none => runLoop opsLimit (curr + 100) t
        | some .keyboardInterrupt => (none, true)
        | some .otherError => (some .otherError, false)

/-- A decimal digit rendered by `Nat.digitChar` parses back via
`c.toNat - 48`. -/
theorem digitChar_toNat_sub (d : Nat) (hd : d < 10) :
    (Nat.digitChar d).toNat - 48 = d := by
  interval_cases d <;> rfl

/-- `Nat.ofDigits` of a run of zero digits is zero. -/
theorem ofDigits_replicate_zero (b k : Nat) :
    Nat.ofDigits b (List.replicate k 0) = 0 := by
  induction k with
  | zero => rfl
  | succ k ih => rw [List.replicate_succ, Nat.ofDigits_cons, ih]; ring

/-- Parsing the decimal digit characters of `n`, however many zeros are
padded on the left, recovers `n`. -/
theorem parse_pad_dec (k n : Nat) :
    parseDecChars (List.replicate k '0' ++ natDecChars n) = n := by
  unfold parseDecChars natDecChars
  rw [List.map_append, List.map_replicate, List.map_map]
  have h0 : ('0'.toNat - 48) = 0 := rfl
  have hdig : (Nat.digits 10 n).reverse.map
      ((fun c => c.toNat - 48) ∘ Nat.digitChar) = (Nat.digits 10 n).reverse := by
    have := List.map_congr_left (l := (Nat.digits 10 n).reverse)
      (f := (fun c : Char => c.toNat - 48) ∘ Nat.digitChar) (g := id) ?_
    · simpa using this
    · intro d hd
      have hd10 : d < 10 := Nat.digits_lt_base (by norm_num)
        (List.mem_reverse.mp hd)
      simp [Function.comp, digitChar_toNat_sub d hd10]
  rw [h0, hdig, List.reverse_append, List.reverse_reverse,
    List.reverse_replicate, Nat.ofDigits_append, ofDigits_replicate_zero,
    Nat.ofDigits_digits]
  ring

/-- Counting elements below the ceiling of `d / W`:
`i < ⌈d / W⌉ ↔ W * i < d` for positive `W`. -/
theorem lt_ceilDiv_iff (W d i : Nat) (hW : 1 ≤ W) :
    i < (d + W - 1) / W ↔ W * i < d := by
  rw [Nat.lt_iff_add_one_le, Nat.le_div_iff_mul_le hW]
  have h1 : (i + 1) * W = W * i + W := by ring
  rw [h1]
  generalize W * i = t
  omega

/-- Membership in worker `sid`'s sequential-key stream is exactly
`x < items` together with `x ≡ sid (mod workers)`. -/
theorem mem_seqKeyNumbers (sid items W x : Nat) (hW : 1 ≤ W)
    (hsid : sid < W) :
    x ∈ seqKeyNumbers sid items W ↔ (x < items ∧ x % W = sid) := by
  unfold seqKeyNumbers
  rw [List.mem_range']
  constructor
  · rintro ⟨i, hi, rfl⟩
    rw [lt_ceilDiv_iff _ _ _ hW] at hi
    have hmod : (sid + W * i) % W = sid := by
      rw [Nat.add_mul_mod_self_left, Nat.mod_eq_of_lt hsid]
    refine ⟨?_, hmod⟩
    generalize hWi : W * i = t at hi
    omega
  · rintro ⟨hx, hmod⟩
    have hdm := Nat.div_add_mod x W
    refine ⟨x / W, ?_, ?_⟩
    · rw [lt_ceilDiv_iff _ _ _ hW]
      generalize hWd : W * (x / W) = t at hdm
      omega
    · generalize hWd : W * (x / W) = t at hdm
      omega

/-- C10: for `workers ≥ 1`, the per-worker sequential key streams
`range(sid, items, workers)` are characterized by the congruence
`x % workers = sid`, every integer of `[0, items)` belongs to exactly one
worker's stream, and the `Key` objects yielded by `SequentialKey` carry
exactly those numbers. -/
theorem sequential_key_partition (ws : WorkloadSettings) (pfx : String)
    (hW : 1 ≤ ws.workers) :
    (∀ sid, sid < ws.workers → ∀ x,
      x ∈ seqKeyNumbers sid ws.items ws.workers ↔
        (x < ws.items ∧ x % ws.workers = sid)) ∧
    (∀ x, x < ws.items → ∃! sid, sid < ws.workers ∧
      x ∈ seqKeyNumbers sid ws.items ws.workers) ∧
    (∀ sid, (SequentialKey.iter sid ws pfx).map Key.number =
      seqKeyNumbers sid ws.items ws.workers) := by
  refine ⟨fun sid hsid x => mem_seqKeyNumbers sid ws.items ws.workers x hW hsid,
    fun x hx => ?_, fun sid => ?_⟩
  · have hmod : x % ws.workers < ws.workers := Nat.mod_lt x (by omega)
    refine ⟨x % ws.workers, ⟨hmod,
      (mem_seqKeyNumbers _ _ _ _ hW hmod).mpr ⟨hx, rfl⟩⟩, ?_⟩
    rintro y ⟨hy, hmem⟩
    exact (((mem_seqKeyNumbers _ _ _ _ hW hy).mp hmem).2).symm
  · unfold SequentialKey.iter
    rw [List.map_map]
    have hcomp : (Key.number ∘ fun n =>
        (⟨n, pfx, ws.key_fmtr, false⟩ : Key)) = id := rfl
    rw [hcomp, List.map_id]

/-- C10 witness: instantiate the partition theorem at
`workers = 3, items = 10`; the number `7` belongs exactly to worker
`7 % 3 = 1`. -/
theorem sequential_key_partition_witness :
    1 ≤ (3 : Nat) ∧
    (7 ∈ seqKeyNumbers 1 10 3 ↔ (7 < 10 ∧ 7 % 3 = 1)) :=
  ⟨by norm_num,
    (sequential_key_partition ⟨10, 3, 0, 0, 0, 0, 0, 0, 0, 0, "d"⟩ ""
      (by norm_num)).1 1 (by norm_num) 7⟩

/-- C9: the decimal formatter prepends `prefix + "-"` exactly when the
prefix is non-empty, zero-pads the digit portion to width 12 (longer
numbers keep all their digits), and parsing the digit portion back yields
the original number. -/
theorem decimal_fmtr_roundtrip (n : Nat) (pfx : String) :
    decimal_fmtr n pfx =
      (if pfx = "" then "" else pfx ++ "-") ++
        String.mk (padZeros 12 (natDecChars n)) ∧
    (padZeros 12 (natDecChars n)).length = max 12 (natDecChars n).length ∧
    parseDecChars (padZeros 12 (natDecChars n)) = n := by
  refine ⟨?_, ?_, ?_⟩
  · unfold decimal_fmtr
    split
    · simp
    · rfl
  · simp only [padZeros, List.length_append, List.length_replicate]
    omega
  · unfold padZeros
    exact parse_pad_dec _ n

/-- C1: for `curr_deletes < curr_items` and every oracle draw, the uniform,
Zipf and power generators return key numbers of
`[curr_deletes, curr_items)`; the Zipf generator clamps any draw falling at
or below `curr_deletes` to `curr_items - 1`. -/
theorem uniform_zipf_power_in_range (gu : UniformKey) (gz gp : ContinuousKey)
    (curr_items curr_deletes : Nat) (h : curr_deletes < curr_items)
    (r z : Nat) (hz : 1 ≤ z) (q : ℚ) (hq0 : 0 ≤ q) (hq1 : q < 1) :
    (∀ k, gu.next curr_items curr_deletes r = some k →
      curr_deletes ≤ k.number ∧ k.number < curr_items) ∧
    (∀ k, ZipfKey.next gz curr_items curr_deletes z = some k →
      curr_deletes ≤ k.number ∧ k.number < curr_items ∧
        (curr_items - z ≤ curr_deletes → k.number = curr_items - 1)) ∧
    (∀ k, PowerKey.next gp curr_items curr_deletes q = some k →
      curr_deletes ≤ k.number ∧ k.number < curr_items) := by
  refine ⟨?_, ?_, ?_⟩
  · intro k hk
    simp only [UniformKey.next, randrange, if_pos h, Option.map_some',
      Option.some.injEq] at hk
    have hmod : r % (curr_items - curr_deletes) < curr_items - curr_deletes :=
      Nat.mod_lt r (by omega)
    subst hk
    simp only
    omega
  · intro k hk
    simp only [ZipfKey.next, Option.some.injEq] at hk
    subst hk
    simp only
    split <;> omega
  · intro k hk
    simp only [PowerKey.next, Option.some.injEq] at hk
    have hfl : ⌊q * ((curr_items - curr_deletes - 1 : Nat) : ℚ)⌋ ≤
        (curr_items - curr_deletes - 1 : Nat) := by
      have hle : q * ((curr_items - curr_deletes - 1 : Nat) : ℚ) ≤
          ((curr_items - curr_deletes - 1 : Nat) : ℚ) := by
        have hnn : (0 : ℚ) ≤ ((curr_items - curr_deletes - 1 : Nat) : ℚ) := by
          positivity
        nlinarith
      calc ⌊q * ((curr_items - curr_deletes - 1 : Nat) : ℚ)⌋
          ≤ ⌊((curr_items - curr_deletes - 1 : Nat) : ℚ)⌋ :=
            Int.floor_le_floor hle
        _ = ((curr_items - curr_deletes - 1 : Nat) : ℤ) := Int.floor_natCast _
    have htn : (⌊q * ((curr_items - curr_deletes - 1 : Nat) : ℚ)⌋).toNat ≤
        curr_items - curr_deletes - 1 := by omega
    subst hk
    simp only
    omega

/-- C1 witness: the bounds at `curr_items = 10`, `curr_deletes = 2` with
draws `r = 5`, `z = 3`, `q = 1/2`. -/
theorem uniform_zipf_power_in_range_witness :
    (2 : Nat) < 10 ∧ (1 : Nat) ≤ 3 ∧ (0 : ℚ) ≤ 1/2 ∧ (1/2 : ℚ) < 1 ∧
    (∀ k, (⟨"", "d"⟩ : UniformKey).next 10 2 5 = some k →
      2 ≤ k.number ∧ k.number < 10) :=
  ⟨by norm_num, by norm_num, by norm_num, by norm_num,
    (uniform_zipf_power_in_range ⟨"", "d"⟩ ⟨"", "d"⟩ ⟨"", "d"⟩ 10 2
      (by norm_num) 5 3 (by norm_num) (1/2) (by norm_num) (by norm_num)).1⟩

/-- C2 counterexample: with `items = 100`, `working_set = 50`,
`working_set_access = 0` the claim demands a miss (`hit = false`) with a
number of the cold range `[0, 50)`; but the access check is
`random.randint(0, 100) <= 0`, so an access draw of `0` takes the hot
branch: the generator returns key number `50` (inside the hot suffix) with
`hit = true`. -/
theorem working_set_access_zero_counterexample :
    WorkingSetKey.next
      (WorkingSetKey.init ⟨100, 1, 0, 0, 0, 0, 0, 50, 0, 0, "d"⟩ "")
      100 0 0 0 = some ⟨50, "", "d", true⟩ := by decide

/-- C2 (amended): with `hot = num_hot_items = items * working_set / 100`,
when `working_set_access = 100` every returned key is a hit with number of
`[curr_items - hot, curr_items)`; when `working_set_access = 0` every
returned key produced by a NON-ZERO access draw is a miss with number of
`[curr_deletes, curr_items - hot)` (an access draw of `0`, probability
`1/101` under `randint(0, 100)`, still produces a hit). -/
theorem working_set_key_ranges (ws : WorkloadSettings) (pfx : String)
    (g : WorkingSetKey) (hg : g = WorkingSetKey.init ws pfx)
    (curr_items curr_deletes a r : Nat) :
    g.num_hot_items = ws.items * ws.working_set / 100 ∧
    (g.working_set_access = 100 →
      ∀ k, g.next curr_items curr_deletes a r = some k →
        curr_items - g.num_hot_items ≤ k.number ∧
        k.number < curr_items ∧ k.hit = true) ∧
    (g.working_set_access = 0 → a % 101 ≠ 0 →
      ∀ k, g.next curr_items curr_deletes a r = some k →
        curr_deletes ≤ k.number ∧
        k.number < curr_items - g.num_hot_items ∧
        k.hit = false) := by
  obtain ⟨hot, wsa, gpfx, gfmtr⟩ := g
  refine ⟨congrArg WorkingSetKey.num_hot_items hg, ?_, ?_⟩
  · intro h100 k hk
    obtain ⟨kn, kp, kf, kh⟩ := k
    simp only at h100
    have ha : a % 101 ≤ 100 := by omega
    simp only [WorkingSetKey.next, h100, if_pos ha, randrange] at hk
    split at hk
    · simp only [Option.map_some', Option.some.injEq, Key.mk.injEq] at hk
      obtain ⟨hkn, hkp, hkf, hkh⟩ := hk
      subst hkn; subst hkh
      rename_i hlt
      have hmod := Nat.mod_lt r (y := curr_items - (curr_items - hot))
        (by omega)
      refine ⟨?_, ?_, rfl⟩ <;> simp only <;> omega
    · simp at hk
  · intro h0 ha k hk
    obtain ⟨kn, kp, kf, kh⟩ := k
    simp only at h0
    have hgt : ¬ (a % 101 ≤ wsa) := by omega
    simp only [WorkingSetKey.next, if_neg hgt, randrange] at hk
    split at hk
    · simp only [Option.map_some', Option.some.injEq, Key.mk.injEq] at hk
      obtain ⟨hkn, hkp, hkf, hkh⟩ := hk
      subst hkn; subst hkh
      rename_i hlt
      have hmod := Nat.mod_lt r (y := curr_items - hot - curr_deletes)
        (by omega)
      refine ⟨?_, ?_, rfl⟩ <;> simp only <;> omega
    · simp at hk

/-- C2 witness: with `working_set_access = 100` (items 100, working set
50%) and access draw `7`, position draw `3`, the generator returns key 53,
a hit inside the hot suffix `[50, 100)`. -/
theorem working_set_key_ranges_witness :
    (WorkingSetKey.init ⟨100, 1, 0, 0, 0, 0, 0, 50, 100, 0, "d"⟩
        "").num_hot_items = 100 * 50 / 100 ∧
    ((100 : Nat) - (WorkingSetKey.init ⟨100, 1, 0, 0, 0, 0, 0, 50, 100, 0,
        "d"⟩ "").num_hot_items ≤ 53 ∧ (53 : Nat) < 100 ∧ true = true) :=
  ⟨(working_set_key_ranges ⟨100, 1, 0, 0, 0, 0, 0, 50, 100, 0, "d"⟩ "" _
      rfl 100 0 7 3).1,
   (working_set_key_ranges ⟨100, 1, 0, 0, 0, 0, 0, 50, 100, 0, "d"⟩ "" _
      rfl 100 0 7 3).2.1 rfl ⟨53, "", "d", true⟩ (by decide)⟩

/-- C3 counterexample: `UniformKey.next` with
`curr_items = curr_deletes = 5` evaluates `random.randrange(5, 5)`, which
raises `ValueError` (modelled `none`) — so not every distribution
tolerates the empty live range without raising. -/
theorem uniform_empty_range_raises :
    (⟨"", "d"⟩ : UniformKey).next 5 5 0 = none := by decide

/-- C3 (amended): on the empty live range `curr_items = curr_deletes = n`
(`n ≥ 1`): the Zipf generator does not raise and returns the boundary key
`n - 1`, the power generator does not raise and returns `n` (both outside
the empty live range, which contains no valid key), while the uniform
generator always raises `ValueError` from `randrange` and the working-set
generator raises whenever it takes the miss branch (access draw above
`working_set_access`). -/
theorem empty_range_behavior (gu : UniformKey) (gw : WorkingSetKey)
    (gz gp : ContinuousKey) (n : Nat) (hn : 1 ≤ n) (r a z : Nat)
    (hz : 1 ≤ z) (q : ℚ) (hq0 : 0 ≤ q) (hq1 : q < 1) :
    gu.next n n r = none ∧
    (gw.working_set_access < a % 101 → gw.next n n a r = none) ∧
    ZipfKey.next gz n n z = some ⟨n - 1, gz.keyPfx, gz.fmtr, false⟩ ∧
    PowerKey.next gp n n q = some ⟨n, gp.keyPfx, gp.fmtr, false⟩ := by
  refine ⟨?_, ?_, ?_, ?_⟩
  · simp [UniformKey.next, randrange]
  · intro hmiss
    have : ¬ (a % 101 ≤ gw.working_set_access) := by omega
    simp only [WorkingSetKey.next, if_neg this, randrange]
    have : ¬ (n < n - gw.num_hot_items) := by omega
    simp [this]
  · simp only [ZipfKey.next, Option.some.injEq]
    have : n - z ≤ n := Nat.sub_le n z
    simp [this]
  · simp only [PowerKey.next]
    have hspan : n - n - 1 = 0 := by omega
    rw [hspan]
    norm_num

/-- C5: `Key.string` is a pure function of `(number, prefix, formatter)` —
two keys agreeing on those three fields, regardless of the `hit` flag,
have the same string form under any (deterministic) spooky hash — and the
`String` synthesizer's output is likewise a function of those inputs
alone: the definitions consume no random oracle (contrast
`IncompressibleString.build_string`, which takes one). -/
theorem key_string_and_doc_deterministic (hash : String → Nat)
    (g : StringGen) (k1 k2 : Key) (h1 : k1.number = k2.number)
    (h2 : k1.keyPfx = k2.keyPfx) (h3 : k1.fmtr = k2.fmtr) :
    Key.string hash k1 = Key.string hash k2 ∧
    StringGen.next hash g k1 = StringGen.next hash g k2 := by
  obtain ⟨n1, p1, f1, b1⟩ := k1
  obtain ⟨n2, p2, f2, b2⟩ := k2
  simp only at h1 h2 h3
  subst h1; subst h2; subst h3
  exact ⟨rfl, rfl⟩

/-- C5 witness: two keys with number `7`, empty prefix and decimal
formatter that differ only in the `hit` flag have identical strings and
identical synthesized documents (hash instantiated with string length). -/
theorem key_string_and_doc_deterministic_witness :
    Key.string (fun s => s.length) ⟨7, "", "d", false⟩ =
      Key.string (fun s => s.length) ⟨7, "", "d", true⟩ ∧
    StringGen.next (fun s => s.length) ⟨32⟩ ⟨7, "", "d", false⟩ =
      StringGen.next (fun s => s.length) ⟨32⟩ ⟨7, "", "d", true⟩ :=
  key_string_and_doc_deterministic (fun s => s.length) ⟨32⟩
    ⟨7, "", "d", false⟩ ⟨7, "", "d", true⟩ rfl rfl rfl

/-- C6: with `p = curr_items // n1ql_workers`, the shard intervals
`[sid * p, (sid + 1) * p)` are pairwise disjoint, their union is exactly
`[0, W * p)` — all of `[0, curr_items)` except the rounding remainder
`curr_items % W` — and every key `KeyForCASUpdate.next` returns to shard
`sid` lies inside that shard's interval. -/
theorem cas_update_sharding (W : Nat) (pfx f : String) (I : Nat)
    (hW : 1 ≤ W) :
    (∀ s1 s2 : Nat, s1 ≠ s2 → ∀ x : Nat,
      ¬((s1 * (I / W) ≤ x ∧ x < (s1 + 1) * (I / W)) ∧
        (s2 * (I / W) ≤ x ∧ x < (s2 + 1) * (I / W)))) ∧
    (∀ x : Nat, (∃ s, s < W ∧ s * (I / W) ≤ x ∧ x < (s + 1) * (I / W)) ↔
      x < W * (I / W)) ∧
    W * (I / W) + I % W = I ∧
    (∀ sid r k, KeyForCASUpdate.next ⟨W, pfx, f⟩ sid I r = some k →
      sid * (I / W) ≤ k.number ∧ k.number < (sid + 1) * (I / W)) := by
  refine ⟨?_, ?_, Nat.div_add_mod I W, ?_⟩
  · rintro s1 s2 hne x ⟨⟨h1l, h1r⟩, ⟨h2l, h2r⟩⟩
    rcases lt_trichotomy s1 s2 with h | h | h
    · have hle : (s1 + 1) * (I / W) ≤ s2 * (I / W) :=
        Nat.mul_le_mul_right _ (by omega)
      omega
    · exact hne h
    · have hle : (s2 + 1) * (I / W) ≤ s1 * (I / W) :=
        Nat.mul_le_mul_right _ (by omega)
      omega
  · intro x
    constructor
    · rintro ⟨s, hs, hl, hr⟩
      have hle : (s + 1) * (I / W) ≤ W * (I / W) :=
        Nat.mul_le_mul_right _ (by omega)
      omega
    · intro hx
      by_cases hp : I / W = 0
      · exfalso
        rw [hp, Nat.mul_zero] at hx
        exact Nat.not_lt_zero x hx
      · have hp0 : 0 < I / W := Nat.pos_of_ne_zero hp
        refine ⟨x / (I / W), ?_, ?_, ?_⟩
        · exact (Nat.div_lt_iff_lt_mul hp0).mpr hx
        · exact Nat.div_mul_le_self x (I / W)
        · have hdm := Nat.div_add_mod x (I / W)
          have hmod := Nat.mod_lt x hp0
          have hexp : (x / (I / W) + 1) * (I / W) =
              (I / W) * (x / (I / W)) + (I / W) := by ring
          rw [hexp]
          omega
  · intro sid r k hk
    obtain ⟨kn, kp, kf, kh⟩ := k
    simp only [KeyForCASUpdate.next] at hk
    have hW0 : ¬ (W = 0) := by omega
    rw [if_neg hW0] at hk
    split at hk
    · simp at hk
    · rename_i hp
      simp only [Option.some.injEq, Key.mk.injEq] at hk
      obtain ⟨hkn, hkp, hkf, hkh⟩ := hk
      subst hkn
      have hmod : r % (I / W) < I / W :=
        Nat.mod_lt r (Nat.pos_of_ne_zero hp)
      have hexp : (sid + 1) * (I / W) = sid * (I / W) + (I / W) := by ring
      refine ⟨?_, ?_⟩ <;> simp only <;> omega

/-- C6 witness: `W = 3` workers over `I = 10` items give `p = 3`; the key
returned to shard 1 with draw 5 is `3 + 5 % 3 = 5`, inside `[3, 6)`, and
the shards jointly cover `[0, 9)` leaving remainder `10 % 3 = 1`. -/
theorem cas_update_sharding_witness :
    (1 : Nat) ≤ 3 ∧ 3 * (10 / 3) + 10 % 3 = 10 :=
  ⟨by norm_num, (cas_update_sharding 3 "" "d" 10 (by norm_num)).2.2.1⟩

/-- C3 witness: the amended empty-range behavior at `n = 5` with draws
`r = 0`, `a = 3` (against `working_set_access = 0`), `z = 2`, `q = 1/2`. -/
theorem empty_range_behavior_witness :
    (1 : Nat) ≤ 5 ∧ (1 : Nat) ≤ 2 ∧ (0 : ℚ) ≤ 1/2 ∧ (1/2 : ℚ) < 1 ∧
    ZipfKey.next ⟨"", "d"⟩ 5 5 2 = some ⟨4, "", "d", false⟩ :=
  ⟨by norm_num, by norm_num, by norm_num, by norm_num,
    (empty_range_behavior ⟨"", "d"⟩ ⟨2, 0, "", "d"⟩ ⟨"", "d"⟩ ⟨"", "d"⟩ 5
      (by norm_num) 0 3 2 (by norm_num) (1/2) (by norm_num)
      (by norm_num)).2.2.1⟩

/-- C7: `MovingWorkingSetKey.next` with the timer flag set clears the
flag and replaces the offset by
`(hot_load_start + working_set_moving_docs) % (num_existing - num_hot)`
(`num_existing = curr_items - curr_deletes`,
`num_hot = num_existing * working_set / 100`); with the flag clear the
offset is unchanged; in both cases the returned key number lies in
`[curr_deletes + offset, curr_deletes + offset + num_hot)` for the
resulting offset.  Concretely, with `working_set = 10`, 1000 live items
and `working_set_moving_docs = 50`, three timer ticks starting from
offset 100 advance it by exactly `150 mod 900`. -/
theorem moving_working_set_next (g : MovingWorkingSetKey)
    (ci cd hls : Nat) (timer : Bool) (r : Nat)
    (hhot : 1 ≤ (ci - cd) * g.working_set / 100)
    (hcold : timer = true →
      (ci - cd) - (ci - cd) * g.working_set / 100 ≠ 0) :
    (timer = true →
      g.next ci cd hls timer r =
        some (g.advanceOffset (ci - cd) hls, false,
          ⟨cd + g.advanceOffset (ci - cd) hls +
            r % ((ci - cd) * g.working_set / 100),
            g.keyPfx, g.fmtr, false⟩) ∧
      g.advanceOffset (ci - cd) hls =
        (hls + g.working_set_moving_docs) %
          ((ci - cd) - (ci - cd) * g.working_set / 100)) ∧
    (timer = false →
      g.next ci cd hls timer r =
        some (hls, false,
          ⟨cd + hls + r % ((ci - cd) * g.working_set / 100),
            g.keyPfx, g.fmtr, false⟩)) ∧
    (∀ hls' flag k, g.next ci cd hls timer r = some (hls', flag, k) →
      cd + hls' ≤ k.number ∧
      k.number < cd + hls' + (ci - cd) * g.working_set / 100 ∧
      flag = false) ∧
    MovingWorkingSetKey.advanceOffset ⟨10, 100, 50, "", "d"⟩ 1000
      (MovingWorkingSetKey.advanceOffset ⟨10, 100, 50, "", "d"⟩ 1000
        (MovingWorkingSetKey.advanceOffset ⟨10, 100, 50, "", "d"⟩ 1000 100))
      = (100 + 150) % 900 := by
  have hnext_t : timer = true →
      g.next ci cd hls timer r =
        some (g.advanceOffset (ci - cd) hls, false,
          ⟨cd + g.advanceOffset (ci - cd) hls +
            r % ((ci - cd) * g.working_set / 100),
            g.keyPfx, g.fmtr, false⟩) := by
    intro ht
    subst ht
    simp only [MovingWorkingSetKey.next, if_true, if_neg (hcold rfl),
      randrange]
    have hlt : cd + g.advanceOffset (ci - cd) hls <
        cd + g.advanceOffset (ci - cd) hls +
          (ci - cd) * g.working_set / 100 := by omega
    rw [if_pos hlt, Nat.add_sub_cancel_left, Option.map_some']
  have hnext_f : timer = false →
      g.next ci cd hls timer r =
        some (hls, false,
          ⟨cd + hls + r % ((ci - cd) * g.working_set / 100),
            g.keyPfx, g.fmtr, false⟩) := by
    intro ht
    subst ht
    simp only [MovingWorkingSetKey.next, Bool.false_eq_true, if_false,
      randrange]
    have hlt : cd + hls <
        cd + hls + (ci - cd) * g.working_set / 100 := by omega
    rw [if_pos hlt, Nat.add_sub_cancel_left, Option.map_some']
  refine ⟨fun ht => ⟨hnext_t ht, ?_⟩, hnext_f, ?_, by decide⟩
  · subst ht
    rfl
  · intro hls' flag k hk
    have hmod : r % ((ci - cd) * g.working_set / 100) <
        (ci - cd) * g.working_set / 100 := Nat.mod_lt r (by omega)
    cases timer with
    | true =>
        rw [hnext_t rfl] at hk
        simp only [Option.some.injEq, Prod.mk.injEq] at hk
        obtain ⟨h1, h2, h3⟩ := hk
        subst h1; subst h2; subst h3
        refine ⟨by simp only; omega, by simp only; omega, rfl⟩
    | false =>
        rw [hnext_f rfl] at hk
        simp only [Option.some.injEq, Prod.mk.injEq] at hk
        obtain ⟨h1, h2, h3⟩ := hk
        subst h1; subst h2; subst h3
        refine ⟨by simp only; omega, by simp only; omega, rfl⟩

/-- C7 witness: the timer-clear case at `curr_items = 1000`,
`curr_deletes = 0`, `working_set = 10`, offset 100, draw 7: the key is
`100 + 7 = 107`, inside the hot window `[100, 200)`. -/
theorem moving_working_set_next_witness :
    (1 : Nat) ≤ (1000 - 0) * 10 / 100 ∧
    MovingWorkingSetKey.next ⟨10, 100, 50, "", "d"⟩ 1000 0 100 false 7 =
      some (100, false, ⟨0 + 100 + 7 % ((1000 - 0) * 10 / 100),
        "", "d", false⟩) :=
  ⟨by norm_num,
    (moving_working_set_next ⟨10, 100, 50, "", "d"⟩ 1000 0 100 false 7
      (by norm_num) (by intro h; exact absurd h (by norm_num))).2.1 rfl⟩

/-- C8 counterexample: a batch whose operation raises anything other than
`KeyboardInterrupt` (outcome `otherError`) makes the synchronous run loop
propagate the exception (`fst = some otherError`) and skip the
latency-sample dump (`snd = false`) — the `try` in `KVWorker.run` catches
only `KeyboardInterrupt`, contradicting the claim that no operation
exception terminates the worker and that the dump runs on every exit
path. -/
theorem batch_error_terminates_worker :
    runLoop 1000 0 [some .otherError] = (some .otherError, false) := by
  decide

/-- Unfolding equation for `runLoop` on a non-empty batch schedule. -/
theorem runLoop_cons (opsLimit curr : Nat) (b : Option ExcKind)
    (t : List (Option ExcKind)) :
    runLoop opsLimit curr (b :: t) =
      if opsLimit ≤ curr then (none, true)
      else
        match b with
        | none => runLoop opsLimit (curr + 100) t
        | some .keyboardInterrupt => (none, true)
        | some .otherError => (some .otherError, false) := rfl

/-- Helper: the synchronous run loop skips the latency dump only when an
`otherError` exception propagates out of it. -/
theorem runLoop_dump_skipped (opsLimit : Nat) (bs : List (Option ExcKind))
    (curr : Nat) (h : (runLoop opsLimit curr bs).2 = false) :
    (runLoop opsLimit curr bs).1 = some .otherError := by
  induction bs generalizing curr with
  | nil => simp [runLoop] at h
  | cons b t ih =>
      rw [runLoop_cons] at h ⊢
      by_cases hoc : opsLimit ≤ curr
      · rw [if_pos hoc] at h
        simp at h
      · rw [if_neg hoc] at h ⊢
        cases b with
        | none => exact ih _ h
        | some e =>
            cases e with
            | keyboardInterrupt => simp at h
            | otherError => rfl

/-- C8 (amended): in the synchronous worker run loop only
`KeyboardInterrupt` is caught: if no batch raises a different exception
the loop always reaches the latency dump with nothing propagating
(whether it ends by interrupt, operation-count exhaustion or shutdown);
but any other exception from an operation or batch propagates out of
`run` and the dump is skipped — the dump is skipped exactly on those
propagating-error paths. -/
theorem run_loop_exception_policy (opsLimit curr : Nat)
    (batches : List (Option ExcKind))
    (hno : ∀ b ∈ batches, b ≠ some .otherError) :
    runLoop opsLimit curr batches = (none, true) ∧
    (∀ bs : List (Option ExcKind), (runLoop opsLimit curr bs).2 = false →
      (runLoop opsLimit curr bs).1 = some .otherError) := by
  refine ⟨?_, fun bs h => runLoop_dump_skipped opsLimit bs curr h⟩
  induction batches generalizing curr with
  | nil => rfl
  | cons b t ih =>
      rw [runLoop_cons]
      by_cases hoc : opsLimit ≤ curr
      · rw [if_pos hoc]
      · rw [if_neg hoc]
        cases b with
        | none =>
            exact ih _ (fun x hx => hno x (List.mem_cons_of_mem _ hx))
        | some e =>
            cases e with
            | keyboardInterrupt => rfl
            | otherError =>
                exact absurd rfl (hno _ (List.mem_cons_self _ _))

/-- C8 witness: a run of one successful batch followed by a
`KeyboardInterrupt` exits with nothing propagating and the dump
performed. -/
theorem run_loop_exception_policy_witness :
    runLoop 1000 0 [none, some .keyboardInterrupt] = (none, true) :=
  (run_loop_exception_policy 1000 0 [none, some .keyboardInterrupt]
    (by decide)).1

/-- Cons-step equation for `createKeys`. -/
theorem createKeys_cons (c : Cmd) (l : List Cmd) :
    createKeys (c :: l) =
      if c.kind = .create then c.key :: createKeys l else createKeys l := by
  by_cases hcond : c.kind = .create <;>
    simp [createKeys, List.filterMap_cons, hcond]

/-- Cons-step equation for `deleteKeys`. -/
theorem deleteKeys_cons (c : Cmd) (l : List Cmd) :
    deleteKeys (c :: l) =
      if c.kind = .delete then c.key :: deleteKeys l else deleteKeys l := by
  by_cases hcond : c.kind = .delete <;>
    simp [deleteKeys, List.filterMap_cons, hcond]

/-- Cons-step equation for `countKind`. -/
theorem countKind_cons (k : CmdKind) (c : Cmd) (l : List Cmd) :
    countKind k (c :: l) =
      (if c.kind = k then 1 else 0) + countKind k l := by
  by_cases hcond : c.kind = k <;>
    simp [countKind, List.filter_cons, hcond] <;> omega

/-- Helper: the create commands of a resolved batch carry exactly the
consecutive numbers `ci, ci + 1, ...`, one per `'c'` token. -/
theorem createKeys_genCmds (ops : List OpTok) (ci di idx : Nat)
    (sample : Nat → Nat) :
    createKeys (genCmds ops ci di idx sample) =
      List.range' ci (ops.count .c) := by
  induction ops generalizing ci di idx with
  | nil => rfl
  | cons h t ih =>
      cases h <;>
        simp [genCmds, createKeys_cons, List.count_cons, ih,
          List.range'_succ]

/-- Helper: the delete commands of a resolved batch carry exactly the
consecutive numbers `di, di + 1, ...`, one per `'d'` token. -/
theorem deleteKeys_genCmds (ops : List OpTok) (ci di idx : Nat)
    (sample : Nat → Nat) :
    deleteKeys (genCmds ops ci di idx sample) =
      List.range' di (ops.count .d) := by
  induction ops generalizing ci di idx with
  | nil => rfl
  | cons h t ih =>
      cases h <;>
        simp [genCmds, deleteKeys_cons, List.count_cons, ih,
          List.range'_succ]

/-- Helper: command counts per kind of a resolved batch, as functions of
the token counts (`'m'` contributes one read and one update). -/
theorem countKind_genCmds (ops : List OpTok) (ci di idx : Nat)
    (sample : Nat → Nat) :
    countKind .create (genCmds ops ci di idx sample) = ops.count .c ∧
    countKind .delete (genCmds ops ci di idx sample) = ops.count .d ∧
    countKind .read (genCmds ops ci di idx sample) =
      ops.count .r + ops.count .m ∧
    countKind .update (genCmds ops ci di idx sample) =
      ops.count .u + ops.count .m := by
  induction ops generalizing ci di idx with
  | nil => exact ⟨rfl, rfl, rfl, rfl⟩
  | cons h t ih =>
      cases h <;> obtain ⟨ih1, ih2, ih3, ih4⟩ := ih (ci + 1) di idx <;>
        obtain ⟨jh1, jh2, jh3, jh4⟩ := ih ci (di + 1) idx <;>
        obtain ⟨kh1, kh2, kh3, kh4⟩ := ih ci di (idx + 1) <;>
        refine ⟨?_, ?_, ?_, ?_⟩ <;>
        simp [genCmds, countKind_cons, List.count_cons, ih1, ih2, ih3, ih4,
          jh1, jh2, jh3, jh4, kh1, kh2, kh3, kh4] <;>
        omega

/-- Helper: the token counts of the canonical (pre-shuffle) operation
multiset built by `KVWorker.random_ops`. -/
theorem count_canonicalOps (ws : WorkloadSettings) :
    (canonicalOps ws).count .c = ws.creates ∧
    (canonicalOps ws).count .r = ws.reads ∧
    (canonicalOps ws).count .u = ws.updates ∧
    (canonicalOps ws).count .d = ws.deletes ∧
    (canonicalOps ws).count .m = ws.reads_and_updates / 2 := by
  refine ⟨?_, ?_, ?_, ?_, ?_⟩ <;>
    simp [canonicalOps, List.count_append, List.count_replicate]

/-- C4: one call to `gen_cmd_sequence` on any shuffle of the canonical
token multiset performs exactly one reservation of new-key space
(`curr_items` grows by `ws.creates`) and one of deleted-key space
(`deleted_items` grows by `ws.deletes`); the command list contains
exactly `ws.creates` creates whose keys are consecutive from the
reserved snapshot, `ws.deletes` deletes with consecutive removal keys,
`ws.reads + ws.reads_and_updates / 2` reads and
`ws.updates + ws.reads_and_updates / 2` updates, and each `'m'` token
resolves into an adjacent read/update pair sharing one sampled key. -/
theorem gen_cmd_sequence_spec (ws : WorkloadSettings) (st : SharedState)
    (ops : List OpTok) (sample : Nat → Nat)
    (hperm : ops.Perm (canonicalOps ws)) :
    ∀ st' snapCi snapDi cmds,
      gen_cmd_sequence ws st ops sample = (st', snapCi, snapDi, cmds) →
      st'.curr_items = st.curr_items + ws.creates ∧
      st'.deleted_items = st.deleted_items + ws.deletes ∧
      (ws.creates ≠ 0 → snapCi = st.curr_items) ∧
      (ws.creates = 0 → snapCi = ws.items) ∧
      (ws.deletes ≠ 0 →
        snapDi = st.deleted_items + ws.deletes * ws.workers) ∧
      createKeys cmds = List.range' snapCi ws.creates ∧
      deleteKeys cmds = List.range' snapDi ws.deletes ∧
      countKind .create cmds = ws.creates ∧
      countKind .delete cmds = ws.deletes ∧
      countKind .read cmds = ws.reads + ws.reads_and_updates / 2 ∧
      countKind .update cmds = ws.updates + ws.reads_and_updates / 2 ∧
      (∀ t ci di idx, genCmds (.m :: t) ci di idx sample =
        ⟨.read, sample idx⟩ :: ⟨.update, sample idx⟩ ::
          genCmds t ci di (idx + 1) sample) := by
  intro st' snapCi snapDi cmds heq
  obtain ⟨hcc, hcr, hcu, hcd, hcm⟩ := count_canonicalOps ws
  have hc : ops.count .c = ws.creates := by rw [hperm.count_eq, hcc]
  have hr : ops.count .r = ws.reads := by rw [hperm.count_eq, hcr]
  have hu : ops.count .u = ws.updates := by rw [hperm.count_eq, hcu]
  have hd : ops.count .d = ws.deletes := by rw [hperm.count_eq, hcd]
  have hm : ops.count .m = ws.reads_and_updates / 2 := by
    rw [hperm.count_eq, hcm]
  obtain ⟨hck1, hck2, hck3, hck4⟩ := countKind_genCmds ops snapCi snapDi 0
    sample
  simp only [gen_cmd_sequence] at heq
  by_cases hcz : ws.creates = 0 <;> by_cases hdz : ws.deletes = 0 <;>
    simp only [hcz, hdz, ne_eq, not_true_eq_false, not_false_eq_true,
      if_true, if_false, ite_true, ite_false, Prod.mk.injEq] at heq <;>
    obtain ⟨h1, h2, h3, h4⟩ := heq <;>
    subst h2 <;> subst h3 <;> subst h4 <;>
    refine ⟨?_, ?_, ?_, ?_, ?_, ?_, ?_, ?_, ?_, ?_, ?_,
      fun t ci di idx => rfl⟩ <;>
    simp_all [createKeys_genCmds, deleteKeys_genCmds, countKind_genCmds,
      ← h1]

/-- C4 witness: a concrete workload (1 create, 2 reads, 1 update,
1 delete, `reads_and_updates = 2`, 2 workers) on the canonical token
order itself, shared state `(items, deleted) = (40, 4)`: the reservation
bumps `curr_items` to 41. -/
theorem gen_cmd_sequence_spec_witness :
    (canonicalOps ⟨10, 2, 1, 2, 1, 1, 2, 0, 0, 0, "d"⟩).Perm
      (canonicalOps ⟨10, 2, 1, 2, 1, 1, 2, 0, 0, 0, "d"⟩) ∧
    (gen_cmd_sequence ⟨10, 2, 1, 2, 1, 1, 2, 0, 0, 0, "d"⟩ ⟨40, 4⟩
        (canonicalOps ⟨10, 2, 1, 2, 1, 1, 2, 0, 0, 0, "d"⟩)
        (fun _ => 6)).1.curr_items = 40 + 1 := by
  refine ⟨List.Perm.refl _, ?_⟩
  have h := gen_cmd_sequence_spec ⟨10, 2, 1, 2, 1, 1, 2, 0, 0, 0, "d"⟩
    ⟨40, 4⟩ (canonicalOps ⟨10, 2, 1, 2, 1, 1, 2, 0, 0, 0, "d"⟩)
    (fun _ => 6) (List.Perm.refl _) _ _ _ _ rfl
  exact h.1

end Spring
